import Mathlib

/-!
Verification development for the Shardy sharding-propagation and
resharding-synthesis system.  The definitions below are shallow embeddings
of the corresponding C++ / TableGen source of the repository; definitions
that model code whose implementation is not part of the sources at hand are
marked with a doc comment starting with the words Modelled from the spec.
-/

namespace Shardy

/-! ## Op sharding rule builder
Embedding of op_sharding_rule_builder.h / op_sharding_rule_builder.cc
(src/unnamed/part_002 and src/unnamed/part_003). -/

/-- Factor type tag, from enums used by the builder. -/
inductive FactorType where
  | kPassThrough
  | kReduction
  | kNeedReplication
  | kPermutation
deriving DecidableEq, Repr

/-- Sentinel dimension meaning that a tensor is not mapped to a factor
(part_002, line 39). -/
def kNullDim : Int := -1

/-- The factor mappings that compose a dimension of a tensor
(part_002, lines 42-44). -/
structure DimMapping where
  factorIndices : List Nat
deriving DecidableEq, Repr

/-- A list of mappings per dimension (part_002, line 47). -/
abbrev TensorMapping := List DimMapping

/-- Update of a single tensor mapping done by one loop iteration of
mapDimsToFactor (part_003, lines 77-89): skip a null dimension, skip a
size-1 factor when the dimension is already mapped, otherwise append the
factor index to the dimension. -/
def mapOneDim (tensorMapping : TensorMapping) (tensorDim : Int)
    (factorIndex : Nat) (factorSize : Int) : TensorMapping :=
  if tensorDim = kNullDim then
    tensorMapping
  else
    match tensorMapping[tensorDim.toNat]? with
    | none => tensorMapping
    | some dm =>
      if factorSize = 1 ∧ dm.factorIndices ≠ [] then
        tensorMapping
      else
        tensorMapping.set tensorDim.toNat ⟨dm.factorIndices ++ [factorIndex]⟩

/-- Maps the given tensor dims that are not kNullDim to factorIndex
(part_003, lines 74-90); the source zips the mappings with the dims. -/
def mapDimsToFactor : List TensorMapping → List Int → Nat → Int →
    List TensorMapping
  | tm :: tms, d :: ds, factorIndex, factorSize =>
      mapOneDim tm d factorIndex factorSize ::
        mapDimsToFactor tms ds factorIndex factorSize
  | tms, _, _, _ => tms

/-- Builder state (part_002, lines 139-154). -/
structure OpShardingRuleBuilder where
  factorSizes : List Int
  operandMappings : List TensorMapping
  resultMappings : List TensorMapping
  reductionFactors : List Nat
  needReplicationFactors : List Nat
  permutationFactors : List Nat
  blockedPropagationFactors : List Nat
deriving DecidableEq, Repr

/-- Reserves a new factor (part_003, lines 175-199): pushes its size,
records it in the blocked list when blocked, and files it under its type. -/
def reserveFactor (b : OpShardingRuleBuilder) (factorSize : Int)
    (factorType : FactorType) (isBlocked : Bool) :
    Nat × OpShardingRuleBuilder :=
  let factorIndex := b.factorSizes.length
  let b1 := { b with factorSizes := b.factorSizes ++ [factorSize] }
  let b2 :=
    if isBlocked then
      { b1 with blockedPropagationFactors :=
          b1.blockedPropagationFactors ++ [factorIndex] }
    else b1
  let b3 :=
    match factorType with
    | .kReduction =>
        { b2 with reductionFactors := b2.reductionFactors ++ [factorIndex] }
    | .kNeedReplication =>
        { b2 with needReplicationFactors :=
            b2.needReplicationFactors ++ [factorIndex] }
    | .kPermutation =>
        { b2 with permutationFactors :=
            b2.permutationFactors ++ [factorIndex] }
    | .kPassThrough => b2
  (factorIndex, b3)

/-- OpShardingRuleBuilder::addFactor (part_003, lines 217-224): reserves one
factor and maps it into the given dimensions of operands and results. -/
def addFactor (b : OpShardingRuleBuilder) (operandDims resultDims : List Int)
    (factorSize : Int) (factorType : FactorType) (isBlocked : Bool) :
    OpShardingRuleBuilder :=
  let r := reserveFactor b factorSize factorType isBlocked
  let b1 := r.2
  let b2 := { b1 with operandMappings :=
      (mapDimsToFactor b1.operandMappings operandDims r.1 factorSize) }
  { b2 with resultMappings :=
      (mapDimsToFactor b2.resultMappings resultDims r.1 factorSize) }

/-- Dimension mapping attribute: the factor index list of one dimension. -/
abbrev DimMappingAttr := List Nat

/-- Tensor mapping attribute: one dimension mapping attribute per dim. -/
abbrev TensorMappingAttr := List DimMappingAttr

/-- Per-tensor part of buildTensorMappingAttrList (part_003, lines 52-65):
an unmapped dimension receives the next fresh factor index, and a factor of
size 1 is pushed onto factorSizes; a mapped dimension keeps its indices. -/
def buildDims : TensorMapping → List Int → TensorMappingAttr × List Int
  | [], fs => ([], fs)
  | dm :: rest, fs =>
    if dm.factorIndices = [] then
      let r := buildDims rest (fs ++ [1])
      ([fs.length] :: r.1, r.2)
    else
      let r := buildDims rest fs
      (dm.factorIndices :: r.1, r.2)

/-- buildTensorMappingAttrList (part_003, lines 47-67), with the mutable
factorSizes made an explicit state thread. -/
def buildTensorMappingAttrList : List TensorMapping → List Int →
    List TensorMappingAttr × List Int
  | [], fs => ([], fs)
  | tm :: rest, fs =>
    let r1 := buildDims tm fs
    let r2 := buildTensorMappingAttrList rest r1.2
    (r1.1 :: r2.1, r2.2)

/-- The frozen rule produced by build (OpShardingRuleAttr). -/
structure OpShardingRuleAttr where
  factorSizes : List Int
  operandMappings : List TensorMappingAttr
  resultMappings : List TensorMappingAttr
  reductionFactors : List Nat
  needReplicationFactors : List Nat
  permutationFactors : List Nat
  blockedPropagationFactors : List Nat
deriving DecidableEq, Repr

/-- OpShardingRuleBuilder::build (part_003, lines 136-154): builds the
attribute lists (padding unmapped dimensions), creates the rule from the
extended factorSizes, then erases the added factors by resizing factorSizes
back to its original length. -/
def build (b : OpShardingRuleBuilder) :
    OpShardingRuleAttr × OpShardingRuleBuilder :=
  let originalNumFactors := b.factorSizes.length
  let rOp := buildTensorMappingAttrList b.operandMappings b.factorSizes
  let rRes := buildTensorMappingAttrList b.resultMappings rOp.2
  let result : OpShardingRuleAttr :=
    ⟨rRes.2, rOp.1, rRes.1, b.reductionFactors, b.needReplicationFactors,
      b.permutationFactors, b.blockedPropagationFactors⟩
  (result, { b with factorSizes := rRes.2.take originalNumFactors })

/-! Lemmas about the builder embedding. -/

theorem mapDimsToFactor_getElem (tms : List TensorMapping) (ds : List Int)
    (fi : Nat) (fs : Int) (h : tms.length = ds.length) (t : Nat) :
    (mapDimsToFactor tms ds fi fs)[t]? =
      match tms[t]?, ds[t]? with
      | some tm, some d => some (mapOneDim tm d fi fs)
      | _, _ => tms[t]? := by
  induction tms generalizing ds t with
  | nil =>
    cases ds with
    | nil => simp [mapDimsToFactor]
    | cons d ds => simp at h
  | cons tm tms ih =>
    cases ds with
    | nil => simp at h
    | cons d ds =>
      cases t with
      | zero => simp [mapDimsToFactor]
      | succ t =>
        simp only [mapDimsToFactor, List.getElem?_cons_succ]
        exact ih ds (by simpa using h) t

theorem buildDims_snd (tm : TensorMapping) (fs : List Int) :
    ∃ extra, (buildDims tm fs).2 = fs ++ extra ∧ ∀ x ∈ extra, x = 1 := by
  induction tm generalizing fs with
  | nil => exact ⟨[], by simp [buildDims]⟩
  | cons dm rest ih =>
    by_cases hdm : dm.factorIndices = []
    · obtain ⟨e, he, hall⟩ := ih (fs ++ [1])
      refine ⟨1 :: e, ?_, ?_⟩
      · simp [buildDims, hdm, he]
      · intro x hx
        rcases List.mem_cons.mp hx with h1 | h2
        · exact h1
        · exact hall x h2
    · obtain ⟨e, he, hall⟩ := ih fs
      exact ⟨e, by simp [buildDims, hdm, he], hall⟩

theorem buildTensorMappingAttrList_snd (tms : List TensorMapping)
    (fs : List Int) :
    ∃ extra, (buildTensorMappingAttrList tms fs).2 = fs ++ extra ∧
      ∀ x ∈ extra, x = 1 := by
  induction tms generalizing fs with
  | nil => exact ⟨[], by simp [buildTensorMappingAttrList]⟩
  | cons tm rest ih =>
    obtain ⟨e1, he1, hall1⟩ := buildDims_snd tm fs
    obtain ⟨e2, he2, hall2⟩ := ih (buildDims tm fs).2
    refine ⟨e1 ++ e2, ?_, ?_⟩
    · show (buildTensorMappingAttrList rest (buildDims tm fs).2).2 = _
      rw [he2, he1, List.append_assoc]
    · intro x hx
      rcases List.mem_append.mp hx with h1 | h2
      · exact hall1 x h1
      · exact hall2 x h2

theorem take_len_append (l e : List α) : (l ++ e).take l.length = l := by
  induction l with
  | nil => simp
  | cons a l ih => simp [ih]

theorem getElem?_append_small (l e : List α) (i : Nat) (h : i < l.length) :
    (l ++ e)[i]? = l[i]? :=
  List.getElem?_append_left h

theorem getElem?_len_concat (l : List α) (a : α) (e : List α) :
    (l ++ a :: e)[l.length]? = some a := by
  induction l with
  | nil => simp
  | cons b l ih => simpa using ih

/-- Restoring factorSizes in build leaves the builder unchanged. -/
theorem build_restores (b : OpShardingRuleBuilder) : (build b).2 = b := by
  obtain ⟨e1, he1, _⟩ :=
    buildTensorMappingAttrList_snd b.operandMappings b.factorSizes
  obtain ⟨e2, he2, _⟩ :=
    buildTensorMappingAttrList_snd b.resultMappings
      (buildTensorMappingAttrList b.operandMappings b.factorSizes).2
  show { b with factorSizes := _ } = b
  have : (buildTensorMappingAttrList b.resultMappings
      (buildTensorMappingAttrList b.operandMappings b.factorSizes).2).2.take
        b.factorSizes.length = b.factorSizes := by
    rw [he2, he1, List.append_assoc]
    exact take_len_append b.factorSizes (e1 ++ e2)
  rw [this]

theorem reserveFactor_index (b : OpShardingRuleBuilder) (s : Int)
    (ft : FactorType) (bl : Bool) :
    (reserveFactor b s ft bl).1 = b.factorSizes.length := by
  cases bl <;> cases ft <;> rfl

theorem reserveFactor_sizes (b : OpShardingRuleBuilder) (s : Int)
    (ft : FactorType) (bl : Bool) :
    (reserveFactor b s ft bl).2.factorSizes = b.factorSizes ++ [s] := by
  cases bl <;> cases ft <;> rfl

theorem reserveFactor_operandMappings (b : OpShardingRuleBuilder) (s : Int)
    (ft : FactorType) (bl : Bool) :
    (reserveFactor b s ft bl).2.operandMappings = b.operandMappings := by
  cases bl <;> cases ft <;> rfl

theorem reserveFactor_resultMappings (b : OpShardingRuleBuilder) (s : Int)
    (ft : FactorType) (bl : Bool) :
    (reserveFactor b s ft bl).2.resultMappings = b.resultMappings := by
  cases bl <;> cases ft <;> rfl

theorem buildDims_attr (tm : TensorMapping) (fs : List Int) (di : Nat)
    (dm : DimMapping) (h : tm[di]? = some dm) :
    (dm.factorIndices = [] → ∃ j, (buildDims tm fs).1[di]? = some [j] ∧
      fs.length ≤ j ∧ (buildDims tm fs).2[j]? = some 1) ∧
    (dm.factorIndices ≠ [] →
      (buildDims tm fs).1[di]? = some dm.factorIndices) := by
  induction tm generalizing fs di with
  | nil => simp at h
  | cons hd rest ih =>
    cases di with
    | zero =>
      simp only [List.getElem?_cons_zero, Option.some.injEq] at h
      subst h
      by_cases hdm : hd.factorIndices = []
      · refine ⟨fun _ => ⟨fs.length, ?_, le_refl _, ?_⟩, fun hne => absurd hdm hne⟩
        · simp [buildDims, hdm]
        · obtain ⟨e, he, _⟩ := buildDims_snd rest (fs ++ [1])
          simp only [buildDims, hdm, if_pos]
          rw [he, List.append_assoc, List.singleton_append]
          exact getElem?_len_concat fs 1 e
      · exact ⟨fun hc => absurd hc hdm, fun _ => by simp [buildDims, hdm]⟩
    | succ n =>
      simp only [List.getElem?_cons_succ] at h
      by_cases hhd : hd.factorIndices = []
      · obtain ⟨h1, h2⟩ := ih (fs ++ [1]) n h
        refine ⟨fun hc => ?_, fun hne => ?_⟩
        · obtain ⟨j, hj1, hj2, hj3⟩ := h1 hc
          refine ⟨j, ?_, ?_, ?_⟩
          · simpa [buildDims, hhd] using hj1
          · calc fs.length ≤ (fs ++ [1]).length := by simp
              _ ≤ j := hj2
          · simpa [buildDims, hhd] using hj3
        · simpa [buildDims, hhd] using h2 hne
      · obtain ⟨h1, h2⟩ := ih fs n h
        refine ⟨fun hc => ?_, fun hne => ?_⟩
        · obtain ⟨j, hj1, hj2, hj3⟩ := h1 hc
          exact ⟨j, by simpa [buildDims, hhd] using hj1, hj2,
            by simpa [buildDims, hhd] using hj3⟩
        · simpa [buildDims, hhd] using h2 hne

theorem buildTML_attr (tms : List TensorMapping) (fs : List Int) (ti : Nat)
    (tm : TensorMapping) (h : tms[ti]? = some tm) (di : Nat) (dm : DimMapping)
    (hd : tm[di]? = some dm) :
    (dm.factorIndices = [] → ∃ attr j,
      (buildTensorMappingAttrList tms fs).1[ti]? = some attr ∧
      attr[di]? = some [j] ∧ fs.length ≤ j ∧
      (buildTensorMappingAttrList tms fs).2[j]? = some 1) ∧
    (dm.factorIndices ≠ [] → ∃ attr,
      (buildTensorMappingAttrList tms fs).1[ti]? = some attr ∧
      attr[di]? = some dm.factorIndices) := by
  induction tms generalizing fs ti with
  | nil => simp at h
  | cons hd0 rest ih =>
    cases ti with
    | zero =>
      simp only [List.getElem?_cons_zero, Option.some.injEq] at h
      subst h
      obtain ⟨h1, h2⟩ := buildDims_attr hd0 fs di dm hd
      refine ⟨fun hc => ?_, fun hne => ?_⟩
      · obtain ⟨j, hj1, hj2, hj3⟩ := h1 hc
        refine ⟨(buildDims hd0 fs).1, j, ?_, hj1, hj2, ?_⟩
        · simp only [buildTensorMappingAttrList, List.getElem?_cons_zero]
        obtain ⟨e, he, _⟩ :=
          buildTensorMappingAttrList_snd rest (buildDims hd0 fs).2
        show (buildTensorMappingAttrList rest (buildDims hd0 fs).2).2[j]? =
          some 1
        rw [he]
        have hlt : j < (buildDims hd0 fs).2.length := by
          by_contra hge
          rw [List.getElem?_eq_none (by omega)] at hj3
          exact Option.noConfusion hj3
        rw [getElem?_append_small _ _ _ hlt]
        exact hj3
      · refine ⟨(buildDims hd0 fs).1, ?_, h2 hne⟩
        simp only [buildTensorMappingAttrList, List.getElem?_cons_zero]
    | succ n =>
      simp only [List.getElem?_cons_succ] at h
      obtain ⟨h1, h2⟩ := ih (buildDims hd0 fs).2 n h
      refine ⟨fun hc => ?_, fun hne => ?_⟩
      · obtain ⟨attr, j, hj1, hj2, hj3, hj4⟩ := h1 hc
        refine ⟨attr, j, ?_, hj2, ?_, ?_⟩
        · show (buildTensorMappingAttrList (hd0 :: rest) fs).1[n + 1]? =
            some attr
          simp only [buildTensorMappingAttrList, List.getElem?_cons_succ]
          exact hj1
        · obtain ⟨e, he, _⟩ := buildDims_snd hd0 fs
          calc fs.length ≤ (buildDims hd0 fs).2.length := by rw [he]; simp
            _ ≤ j := hj3
        · show (buildTensorMappingAttrList (hd0 :: rest) fs).2[j]? = some 1
          simp only [buildTensorMappingAttrList]
          exact hj4
      · obtain ⟨attr, ha1, ha2⟩ := h2 hne
        refine ⟨attr, ?_, ha2⟩
        show (buildTensorMappingAttrList (hd0 :: rest) fs).1[n + 1]? =
          some attr
        simp only [buildTensorMappingAttrList, List.getElem?_cons_succ]
        exact ha1

/-- C5 (counterexample): addFactor with a factor of size 1 on a dimension
that already has a mapped factor creates the new factor but does not append
its index to that dimension, refuting the claim that the index is appended
for every dimension entry that is not kNullDim. -/
theorem c5_sizeOne_existing_mapping_not_appended :
    (addFactor ⟨[2], [[⟨[0]⟩]], [], [], [], [], []⟩ [0] [] 1 .kPassThrough
      false).factorSizes = [2, 1] ∧
    ((0 : Int) ≠ kNullDim) ∧
    (addFactor ⟨[2], [[⟨[0]⟩]], [], [], [], [], []⟩ [0] [] 1 .kPassThrough
      false).operandMappings = [[⟨[0]⟩]] ∧
    [[(DimMapping.mk [0])]] ≠ [[(DimMapping.mk ([0] ++ [1]))]] := by
  refine ⟨rfl, by decide, rfl, by decide⟩

/-- C5 (amended): addFactor(operandDims, resultDims, factorSize, factorType,
isBlocked) creates exactly one new factor, whose index is the previous
number of factors, and appends that index to the factor list of the given
dimension of every operand and result whose entry is not kNullDim, except
that when the factor size is 1 and the dimension already has at least one
mapped factor the dimension is left unchanged; dimensions marked kNullDim
are left unchanged. -/
theorem c5_addFactor_amended (b : OpShardingRuleBuilder)
    (operandDims resultDims : List Int) (factorSize : Int)
    (factorType : FactorType) (isBlocked : Bool)
    (hop : b.operandMappings.length = operandDims.length)
    (hres : b.resultMappings.length = resultDims.length) :
    (addFactor b operandDims resultDims factorSize factorType
        isBlocked).factorSizes = b.factorSizes ++ [factorSize] ∧
    (∀ (t : Nat) (tm : TensorMapping) (d : Int),
      b.operandMappings[t]? = some tm → operandDims[t]? = some d →
      ((d = kNullDim →
        (addFactor b operandDims resultDims factorSize factorType
          isBlocked).operandMappings[t]? = some tm) ∧
       (∀ (dm : DimMapping), 0 ≤ d → tm[d.toNat]? = some dm →
         ((factorSize = 1 ∧ dm.factorIndices ≠ []) →
           (addFactor b operandDims resultDims factorSize factorType
             isBlocked).operandMappings[t]? = some tm) ∧
         (¬(factorSize = 1 ∧ dm.factorIndices ≠ []) →
           (addFactor b operandDims resultDims factorSize factorType
             isBlocked).operandMappings[t]? =
             some (tm.set d.toNat
               ⟨dm.factorIndices ++ [b.factorSizes.length]⟩))))) ∧
    (∀ (t : Nat) (tm : TensorMapping) (d : Int),
      b.resultMappings[t]? = some tm → resultDims[t]? = some d →
      ((d = kNullDim →
        (addFactor b operandDims resultDims factorSize factorType
          isBlocked).resultMappings[t]? = some tm) ∧
       (∀ (dm : DimMapping), 0 ≤ d → tm[d.toNat]? = some dm →
         ((factorSize = 1 ∧ dm.factorIndices ≠ []) →
           (addFactor b operandDims resultDims factorSize factorType
             isBlocked).resultMappings[t]? = some tm) ∧
         (¬(factorSize = 1 ∧ dm.factorIndices ≠ []) →
           (addFactor b operandDims resultDims factorSize factorType
             isBlocked).resultMappings[t]? =
             some (tm.set d.toNat
               ⟨dm.factorIndices ++ [b.factorSizes.length]⟩))))) := by
  have hofs : (addFactor b operandDims resultDims factorSize factorType
      isBlocked).factorSizes = b.factorSizes ++ [factorSize] := by
    simp [addFactor, reserveFactor_sizes]
  have hopm : (addFactor b operandDims resultDims factorSize factorType
      isBlocked).operandMappings =
      mapDimsToFactor b.operandMappings operandDims b.factorSizes.length
        factorSize := by
    simp [addFactor, reserveFactor_operandMappings, reserveFactor_index]
  have hrem : (addFactor b operandDims resultDims factorSize factorType
      isBlocked).resultMappings =
      mapDimsToFactor b.resultMappings resultDims b.factorSizes.length
        factorSize := by
    simp [addFactor, reserveFactor_resultMappings, reserveFactor_index]
  have hone : ∀ (tm : TensorMapping) (d : Int),
      ((d = kNullDim →
        mapOneDim tm d b.factorSizes.length factorSize = tm) ∧
       (∀ (dm : DimMapping), 0 ≤ d → tm[d.toNat]? = some dm →
         ((factorSize = 1 ∧ dm.factorIndices ≠ []) →
           mapOneDim tm d b.factorSizes.length factorSize = tm) ∧
         (¬(factorSize = 1 ∧ dm.factorIndices ≠ []) →
           mapOneDim tm d b.factorSizes.length factorSize =
             tm.set d.toNat
               ⟨dm.factorIndices ++ [b.factorSizes.length]⟩))) := by
    intro tm d
    constructor
    · intro hnull
      simp [mapOneDim, hnull]
    · intro dm hd0 hdm
      have hne : ¬(d = kNullDim) := by
        simp only [kNullDim]
        omega
      constructor
      · intro hskip
        simp [mapOneDim, hne, hdm, hskip]
      · intro hdo
        simp [mapOneDim, hne, hdm, hdo]
  refine ⟨hofs, ?_, ?_⟩
  · intro t tm d htm hdim
    have hget := mapDimsToFactor_getElem b.operandMappings operandDims
      b.factorSizes.length factorSize hop t
    rw [htm, hdim] at hget
    have hget2 : (mapDimsToFactor b.operandMappings operandDims
        b.factorSizes.length factorSize)[t]? =
        some (mapOneDim tm d b.factorSizes.length factorSize) := hget
    rw [hopm, hget2]
    obtain ⟨h1, h2⟩ := hone tm d
    exact ⟨fun hn => by rw [h1 hn], fun dm hd0 hdm =>
      ⟨fun hs => by rw [(h2 dm hd0 hdm).1 hs],
       fun hs => by rw [(h2 dm hd0 hdm).2 hs]⟩⟩
  · intro t tm d htm hdim
    have hget := mapDimsToFactor_getElem b.resultMappings resultDims
      b.factorSizes.length factorSize hres t
    rw [htm, hdim] at hget
    have hget2 : (mapDimsToFactor b.resultMappings resultDims
        b.factorSizes.length factorSize)[t]? =
        some (mapOneDim tm d b.factorSizes.length factorSize) := hget
    rw [hrem, hget2]
    obtain ⟨h1, h2⟩ := hone tm d
    exact ⟨fun hn => by rw [h1 hn], fun dm hd0 hdm =>
      ⟨fun hs => by rw [(h2 dm hd0 hdm).1 hs],
       fun hs => by rw [(h2 dm hd0 hdm).2 hs]⟩⟩

/-- Witness for c5_addFactor_amended at a concrete builder: two rank-1
operands, a size-4 factor mapped to dim 0 of the first operand and kNullDim
for the second; the factor is created, appended into the first operand and
the second operand is left unchanged. -/
theorem c5_addFactor_amended_witness :
    (addFactor ⟨[], [[⟨[]⟩], [⟨[5]⟩]], [], [], [], [], []⟩ [0, kNullDim] []
      4 .kPassThrough false).factorSizes = [] ++ [4] ∧
    (addFactor ⟨[], [[⟨[]⟩], [⟨[5]⟩]], [], [], [], [], []⟩ [0, kNullDim] []
      4 .kPassThrough false).operandMappings[0]? =
      some ([DimMapping.mk []].set 0 ⟨[] ++ [0]⟩) ∧
    (addFactor ⟨[], [[⟨[]⟩], [⟨[5]⟩]], [], [], [], [], []⟩ [0, kNullDim] []
      4 .kPassThrough false).operandMappings[1]? = some [⟨[5]⟩] := by
  have h := c5_addFactor_amended ⟨[], [[⟨[]⟩], [⟨[5]⟩]], [], [], [], [], []⟩
    [0, kNullDim] [] 4 .kPassThrough false rfl rfl
  refine ⟨h.1, ?_, ?_⟩
  · exact ((h.2.1 0 [⟨[]⟩] 0 rfl rfl).2 ⟨[]⟩ (by decide) rfl).2 (by decide)
  · exact (h.2.1 1 [⟨[5]⟩] kNullDim rfl rfl).1 rfl

/-- C6: build() pads every dimension that has no mapped factor with a fresh
size-1 factor in the returned rule, while the builder itself is returned to
its pre-call state, so calling build() twice in a row returns equal rules. -/
theorem c6_build_idempotent_spec (b : OpShardingRuleBuilder) :
    (build b).2 = b ∧
    (build ((build b).2)).1 = (build b).1 ∧
    (∀ (ti : Nat) (tm : TensorMapping), b.operandMappings[ti]? = some tm →
      ∀ (di : Nat) (dm : DimMapping), tm[di]? = some dm → dm.factorIndices = [] →
        ∃ attr j, (build b).1.operandMappings[ti]? = some attr ∧
          attr[di]? = some [j] ∧ b.factorSizes.length ≤ j ∧
          (build b).1.factorSizes[j]? = some 1) ∧
    (∀ (ti : Nat) (tm : TensorMapping), b.resultMappings[ti]? = some tm →
      ∀ (di : Nat) (dm : DimMapping), tm[di]? = some dm → dm.factorIndices = [] →
        ∃ attr j, (build b).1.resultMappings[ti]? = some attr ∧
          attr[di]? = some [j] ∧ b.factorSizes.length ≤ j ∧
          (build b).1.factorSizes[j]? = some 1) := by
  refine ⟨build_restores b, by rw [build_restores b], ?_, ?_⟩
  · intro ti tm htm di dm hdm hempty
    obtain ⟨h1, _⟩ :=
      buildTML_attr b.operandMappings b.factorSizes ti tm htm di dm hdm
    obtain ⟨attr, j, ha1, ha2, ha3, ha4⟩ := h1 hempty
    refine ⟨attr, j, ha1, ha2, ha3, ?_⟩
    show (buildTensorMappingAttrList b.resultMappings
      (buildTensorMappingAttrList b.operandMappings b.factorSizes).2).2[j]? =
        some 1
    obtain ⟨e, he, _⟩ := buildTensorMappingAttrList_snd b.resultMappings
      (buildTensorMappingAttrList b.operandMappings b.factorSizes).2
    rw [he]
    have hlt : j < (buildTensorMappingAttrList b.operandMappings
        b.factorSizes).2.length := by
      by_contra hge
      rw [List.getElem?_eq_none (by omega)] at ha4
      exact Option.noConfusion ha4
    rw [getElem?_append_small _ _ _ hlt]
    exact ha4
  · intro ti tm htm di dm hdm hempty
    obtain ⟨h1, _⟩ := buildTML_attr b.resultMappings
      (buildTensorMappingAttrList b.operandMappings b.factorSizes).2 ti tm
      htm di dm hdm
    obtain ⟨attr, j, ha1, ha2, ha3, ha4⟩ := h1 hempty
    refine ⟨attr, j, ha1, ha2, ?_, ha4⟩
    obtain ⟨e, he, _⟩ :=
      buildTensorMappingAttrList_snd b.operandMappings b.factorSizes
    calc b.factorSizes.length
        ≤ (buildTensorMappingAttrList b.operandMappings b.factorSizes).2.length := by
          rw [he]; simp
      _ ≤ j := ha3

/-- Witness for c6_build_idempotent_spec at a concrete builder with one
rank-1 operand whose dimension has no mapped factor. -/
theorem c6_build_idempotent_spec_witness :
    (build ⟨[], [[⟨[]⟩]], [], [], [], [], []⟩).2 =
      ⟨[], [[⟨[]⟩]], [], [], [], [], []⟩ ∧
    ∃ attr j, (build ⟨[], [[⟨[]⟩]], [], [], [], [], []⟩).1.operandMappings[0]? =
      some attr ∧ attr[0]? = some [j] ∧ (0 : Nat) ≤ j ∧
      (build ⟨[], [[⟨[]⟩]], [], [], [], [], []⟩).1.factorSizes[j]? = some 1 := by
  have h := c6_build_idempotent_spec ⟨[], [[⟨[]⟩]], [], [], [], [], []⟩
  exact ⟨h.1, h.2.2.1 0 [⟨[]⟩] rfl 0 ⟨[]⟩ rfl rfl⟩

/-! ## Sharding data model
Embedding of the attribute data model used by canonicalization patterns
(canonicalization.td), the bytecode schema (bytecode.td) and the resharding
algorithm; axis names are modelled as natural numbers. -/

/-- AxisRefAttr: an axis name with an optional sub-axis window
(preSize, size); the window is absent for a full axis. -/
structure AxisRefAttr where
  name : Nat
  subAxisInfo : Option (Nat × Nat)
deriving DecidableEq, Repr

/-- DimensionShardingAttr: axes bound to one tensor dimension, a closed
flag, and an optional priority. -/
structure DimensionShardingAttr where
  axes : List AxisRefAttr
  isClosed : Bool
  priority : Option Nat
deriving DecidableEq, Repr

/-- TensorShardingAttr: mesh reference, per-dimension shardings, replicated
axes, and unreduced axes. -/
structure TensorShardingAttr where
  meshOrRef : Nat
  dimShardings : List DimensionShardingAttr
  replicatedAxes : List AxisRefAttr
  unreducedAxes : List AxisRefAttr
deriving DecidableEq, Repr

/-- One axis list per tensor dimension, as used by gather/slice ops. -/
abbrev AxesPerDim := List (List AxisRefAttr)

/-- AllToAllParamAttr: axes moved from srcDim to tgtDim (bytecode.td lines
213-219 name the fields axes, src_dim, tgt_dim). -/
structure AllToAllParam where
  axes : List AxisRefAttr
  srcDim : Nat
  tgtDim : Nat
deriving DecidableEq, Repr

/-! ## Canonicalization patterns
Embedding of canonicalization.td.  Collective operations are modelled as an
expression tree, so every inner operation structurally has exactly one use
(the HasOneUse constraint of the source patterns). -/

/-- Collective expression: a tensor value or a collective applied to one. -/
inductive CollectiveExpr where
  | value (id : Nat)
  | allGather (gatheringAxes : AxesPerDim) (operand : CollectiveExpr)
      (outSharding : TensorShardingAttr)
  | allSlice (slicingAxes : AxesPerDim) (operand : CollectiveExpr)
      (outSharding : TensorShardingAttr)
  | allToAll (params : List AllToAllParam) (operand : CollectiveExpr)
      (outSharding : TensorShardingAttr)
deriving DecidableEq, Repr

/-- Sdy_EmptyAxesPerDim: every per-dimension axis list is empty. -/
def emptyAxesPerDim (a : AxesPerDim) : Bool := a.all List.isEmpty

/-- Modelled from the spec: AllToAllParamListAttr::overlaps (used by
AllToAllParamsNoOverlap in canonicalization.td line 56; its C++ body is not
among the sources).  Per spec section 4.5 step 3, fusion requires the two
parameter lists' axis sets to be disjoint, so overlap means sharing an
axis. -/
def paramsOverlap (p q : List AllToAllParam) : Bool :=
  p.any (fun a => q.any (fun b => a.axes.any (fun x => decide (x ∈ b.axes))))

/-- Ordering of all-to-all parameters by (srcDim, tgtDim). -/
def paramLE (a b : AllToAllParam) : Prop :=
  a.srcDim < b.srcDim ∨ (a.srcDim = b.srcDim ∧ a.tgtDim ≤ b.tgtDim)

instance : DecidableRel paramLE := fun a b => by
  unfold paramLE
  exact inferInstance

instance : IsTotal AllToAllParam paramLE :=
  ⟨by intro a b; unfold paramLE; omega⟩

instance : IsTrans AllToAllParam paramLE :=
  ⟨by intro a b c; unfold paramLE; omega⟩

/-- Modelled from the spec: AllToAllParamListAttr::combineAndSort (used by
CombineAllToAllParams in canonicalization.td line 58; its C++ body is not
among the sources).  Per the spec it combines the two axis-parameter lists
and sorts them. -/
def combineAndSort (p q : List AllToAllParam) : List AllToAllParam :=
  List.insertionSort paramLE (p ++ q)

/-- One canonicalization rewrite step, from canonicalization.td:
AllGatherNoopPattern (lines 35-36), AllSliceNoopPattern (lines 38-39),
AllSliceOfAllGatherPattern (lines 51-54) and AllToAllFusionPattern (lines
65-71).  The greedy driver applies whichever pattern matches; when both an
all-slice pattern could fire we try AllSliceOfAllGatherPattern first. -/
def canonicalizeStep : CollectiveExpr → Option CollectiveExpr
  | .allGather g t _ => if emptyAxesPerDim g then some t else none
  | .allSlice s u _ =>
    match u with
    | .allGather g t _ =>
      if s = g then some t
      else if emptyAxesPerDim s then some u else none
    | _ => if emptyAxesPerDim s then some u else none
  | .allToAll outerParams u outSharding =>
    match u with
    | .allToAll innerParams t _ =>
      if paramsOverlap innerParams outerParams then none
      else some (.allToAll (combineAndSort innerParams outerParams) t
        outSharding)
    | _ => none
  | _ => none

/-- C7: two nested all-to-alls (the inner one having one use, which the
tree embedding gives structurally) with non-overlapping parameter lists are
fused by AllToAllFusionPattern into a single all-to-all on the inner
operand carrying the outer output sharding, whose parameter list is a
sorted permutation of the concatenation of the two lists. -/
theorem c7_allToAll_fusion (innerParams outerParams : List AllToAllParam)
    (opnd : CollectiveExpr) (innerSh outerSh : TensorShardingAttr)
    (hdisj : paramsOverlap innerParams outerParams = false) :
    canonicalizeStep (.allToAll outerParams
        (.allToAll innerParams opnd innerSh) outerSh) =
      some (.allToAll (combineAndSort innerParams outerParams) opnd
        outerSh) ∧
    (combineAndSort innerParams outerParams).Perm
      (innerParams ++ outerParams) ∧
    (combineAndSort innerParams outerParams).Sorted paramLE := by
  refine ⟨?_, ?_, ?_⟩
  · simp [canonicalizeStep, hdisj]
  · exact List.perm_insertionSort paramLE (innerParams ++ outerParams)
  · exact List.sorted_insertionSort paramLE (innerParams ++ outerParams)

/-- Witness for c7_allToAll_fusion at concrete disjoint parameter lists. -/
theorem c7_allToAll_fusion_witness :
    canonicalizeStep (.allToAll [⟨[⟨1, none⟩], 1, 2⟩]
        (.allToAll [⟨[⟨0, none⟩], 1, 0⟩] (.value 0) ⟨0, [], [], []⟩)
        ⟨1, [], [], []⟩) =
      some (.allToAll
        (combineAndSort [⟨[⟨0, none⟩], 1, 0⟩] [⟨[⟨1, none⟩], 1, 2⟩])
        (.value 0) ⟨1, [], [], []⟩) :=
  (c7_allToAll_fusion [⟨[⟨0, none⟩], 1, 0⟩] [⟨[⟨1, none⟩], 1, 2⟩]
    (.value 0) ⟨0, [], [], []⟩ ⟨1, [], [], []⟩ (by decide)).1

/-- C10: an all-slice whose slicing axes equal the gathering axes of the
all-gather it consumes is rewritten to the original value by
AllSliceOfAllGatherPattern (canonicalization.td lines 51-54), so the
gather-then-slice round trip with matching axes is the identity. -/
theorem c10_allSlice_of_allGather (axes : AxesPerDim) (t : CollectiveExpr)
    (sh1 sh2 : TensorShardingAttr) :
    canonicalizeStep (.allSlice axes (.allGather axes t sh1) sh2) =
      some t := by
  simp [canonicalizeStep]

/-! ## Bytecode schema
Embedding of bytecode.td: the dialect attribute-code table and the two
TensorShardingAttr schema versions. -/

/-- The attribute kinds of the sdy dialect bytecode, in the order of the
SdyDialectTypes elems list (bytecode.td lines 234-256); the position in
sdyDialectTypes is the assigned index (tag). -/
inductive SdyAttrKind where
  | manualAxes
  | meshAxis
  | mesh
  | subAxisInfo
  | axisRef
  | dimSharding
  | tensorShardingV1
  | tensorShardingPerValueV1
  | dimMapping
  | tensorMapping
  | opShardingRule
  | axisRefList
  | listOfAxisRefLists
  | allToAllParam
  | allToAllParamList
  | tensorShardingV2
  | tensorShardingPerValueV2
deriving DecidableEq, Repr

/-- The elems list of SdyDialectTypes (bytecode.td lines 237-255). -/
def sdyDialectTypes : List SdyAttrKind :=
  [.manualAxes, .meshAxis, .mesh, .subAxisInfo, .axisRef, .dimSharding,
   .tensorShardingV1, .tensorShardingPerValueV1, .dimMapping, .tensorMapping,
   .opShardingRule, .axisRefList, .listOfAxisRefLists, .allToAllParam,
   .allToAllParamList, .tensorShardingV2, .tensorShardingPerValueV2]

/-- The integer tag of a bytecode attribute kind: its index in the elems
list. -/
def tagOf (k : SdyAttrKind) : Nat := sdyDialectTypes.indexOf k

/-- Serialized tensor-sharding record: V1 (bytecode.td lines 112-123) has
no unreduced-axes field; V2 (lines 128-136) has one. -/
inductive TensorShardingRecord where
  | v1 (meshOrRef : Nat) (dimShardings : List DimensionShardingAttr)
      (replicatedAxes : List AxisRefAttr)
  | v2 (meshOrRef : Nat) (dimShardings : List DimensionShardingAttr)
      (replicatedAxes : List AxisRefAttr) (unreducedAxes : List AxisRefAttr)
deriving DecidableEq, Repr

/-- The tag under which a record is emitted. -/
def recordTag : TensorShardingRecord → Nat
  | .v1 _ _ _ => tagOf .tensorShardingV1
  | .v2 _ _ _ _ => tagOf .tensorShardingV2

/-- printerPredicate of Sdy_TensorShardingAttrV1Bc (bytecode.td line 122). -/
def tensorShardingV1Pred (s : TensorShardingAttr) : Bool :=
  s.unreducedAxes.isEmpty

/-- printerPredicate of Sdy_TensorShardingAttrV2Bc (bytecode.td line 135). -/
def tensorShardingV2Pred (s : TensorShardingAttr) : Bool :=
  !s.unreducedAxes.isEmpty

/-- Serialization of a TensorShardingAttr: the record version is selected
by the printer predicates. -/
def writeTensorSharding (s : TensorShardingAttr) : TensorShardingRecord :=
  if tensorShardingV1Pred s then
    .v1 s.meshOrRef s.dimShardings s.replicatedAxes
  else
    .v2 s.meshOrRef s.dimShardings s.replicatedAxes s.unreducedAxes

/-- Deserialization: the V1 cBuilder (bytecode.td lines 118-121) passes an
empty unreduced-axes list. -/
def readTensorShardingRecord : TensorShardingRecord → TensorShardingAttr
  | .v1 m d r => ⟨m, d, r, []⟩
  | .v2 m d r u => ⟨m, d, r, u⟩

/-- C9: a TensorSharding serializes as the version-1 record (tag 6, no
unreduced-axes field) exactly when its unreduced-axes set is empty and as
the version-2 record (tag 15) exactly when it is non-empty; the two
printer predicates are mutually exclusive and exhaustive, and a V1 record
deserializes to a sharding with an empty unreduced-axes set. -/
theorem c9_bytecode_version_selection (s : TensorShardingAttr) :
    (recordTag (writeTensorSharding s) = 6 ↔ s.unreducedAxes = []) ∧
    (recordTag (writeTensorSharding s) = 15 ↔ s.unreducedAxes ≠ []) ∧
    (tensorShardingV2Pred s = !tensorShardingV1Pred s) ∧
    tagOf .tensorShardingV1 = 6 ∧ tagOf .tensorShardingV2 = 15 ∧
    (∀ (m : Nat) (d : List DimensionShardingAttr) (r : List AxisRefAttr),
      (readTensorShardingRecord (.v1 m d r)).unreducedAxes = []) := by
  refine ⟨?_, ?_, ?_, by decide, by decide, fun m d r => rfl⟩
  · cases hu : s.unreducedAxes with
    | nil =>
      simp [writeTensorSharding, tensorShardingV1Pred, hu, recordTag]
      decide
    | cons a rest =>
      simp [writeTensorSharding, tensorShardingV1Pred, hu, recordTag]
      decide
  · cases hu : s.unreducedAxes with
    | nil =>
      simp [writeTensorSharding, tensorShardingV1Pred, hu, recordTag]
      decide
    | cons a rest =>
      simp [writeTensorSharding, tensorShardingV1Pred, hu, recordTag]
      decide
  · cases hu : s.unreducedAxes with
    | nil => simp [tensorShardingV1Pred, tensorShardingV2Pred, hu]
    | cons a rest => simp [tensorShardingV1Pred, tensorShardingV2Pred, hu]

/-! ## Propagation direction
Embedding of Sdy_PropagationDirection (enums.td lines 30-39) and the
direction-combination logic described for OpPriorityPropagationPass
(passes.td lines 78-82). -/

/-- PropagationDirection with the integer encoding of enums.td. -/
inductive PropagationDirection where
  | NONE
  | FORWARD
  | BACKWARD
  | BOTH
deriving DecidableEq, Repr, Fintype

/-- Integer value of each case (enums.td lines 33-36). -/
def directionValue : PropagationDirection → Nat
  | .NONE => 0
  | .FORWARD => 1
  | .BACKWARD => 2
  | .BOTH => 3

/-- Expressiveness order on directions: NONE below everything, BOTH above
everything, FORWARD and BACKWARD mutually incomparable (the enum comment
says they should be considered equivalent). -/
def dirLE (a b : PropagationDirection) : Bool :=
  decide (a = b) || decide (a = .NONE) || decide (b = .BOTH)

/-- Modelled from the spec: the combination of the directions produced by
the per-op heuristics (OpPriorityPropagationPass description, passes.td
lines 78-82; the combining function body is not among the sources): the
most expressive direction wins, and FORWARD combined with BACKWARD in
either order yields BOTH. -/
def combineDir : PropagationDirection → PropagationDirection →
    PropagationDirection
  | .NONE, d => d
  | d, .NONE => d
  | .BOTH, _ => .BOTH
  | _, .BOTH => .BOTH
  | .FORWARD, .FORWARD => .FORWARD
  | .BACKWARD, .BACKWARD => .BACKWARD
  | .FORWARD, .BACKWARD => .BOTH
  | .BACKWARD, .FORWARD => .BOTH

/-- Combination of the directions of all heuristics considered so far. -/
def combineAll (l : List PropagationDirection) : PropagationDirection :=
  l.foldl combineDir .NONE

theorem dirLE_combineDir_right :
    ∀ x y d : PropagationDirection, dirLE x y = true →
      dirLE x (combineDir y d) = true := by decide

theorem dirLE_combineDir_self :
    ∀ a d : PropagationDirection, dirLE d (combineDir a d) = true := by
  decide

theorem combineDir_lub :
    ∀ a d c : PropagationDirection, dirLE a c = true → dirLE d c = true →
      dirLE (combineDir a d) c = true := by decide

theorem dirLE_foldl_mono (l : List PropagationDirection)
    (x y : PropagationDirection) (h : dirLE x y = true) :
    dirLE x (l.foldl combineDir y) = true := by
  induction l generalizing y with
  | nil => exact h
  | cons d rest ih =>
    exact ih (combineDir y d) (dirLE_combineDir_right x y d h)

theorem combineAll_upper (l : List PropagationDirection)
    (d : PropagationDirection) (hmem : d ∈ l) :
    dirLE d (combineAll l) = true := by
  show dirLE d (l.foldl combineDir .NONE) = true
  generalize PropagationDirection.NONE = a
  induction l generalizing a with
  | nil => simp at hmem
  | cons h rest ih =>
    rcases List.mem_cons.mp hmem with rfl | hm
    · exact dirLE_foldl_mono rest d (combineDir a d)
        (dirLE_combineDir_self a d)
    · exact ih hm (combineDir a h)

theorem combineAll_least (l : List PropagationDirection)
    (c : PropagationDirection) (a : PropagationDirection)
    (ha : dirLE a c = true) (h : ∀ d ∈ l, dirLE d c = true) :
    dirLE (l.foldl combineDir a) c = true := by
  induction l generalizing a with
  | nil => exact ha
  | cons hd rest ih =>
    exact ih (combineDir a hd)
      (combineDir_lub a hd c ha (h hd (List.mem_cons_self _ _)))
      (fun d hm => h d (List.mem_cons_of_mem _ hm))

/-- C8: per-op heuristic directions over priorities 0..p combine via the
join of the order NONE below FORWARD and BACKWARD below BOTH: combining a
direction with itself or NONE yields that direction, combining anything
with BOTH yields BOTH, and FORWARD with BACKWARD in either encounter order
yields BOTH; the fold over a heuristic list is the least upper bound of its
members. -/
theorem c8_direction_combine :
    (∀ d, combineDir d d = d) ∧
    (∀ d, combineDir d .NONE = d ∧ combineDir .NONE d = d) ∧
    (∀ d, combineDir d .BOTH = .BOTH ∧ combineDir .BOTH d = .BOTH) ∧
    (combineDir .FORWARD .BACKWARD = .BOTH ∧
      combineDir .BACKWARD .FORWARD = .BOTH) ∧
    (∀ heuristicDirs : List PropagationDirection,
      (∀ d ∈ heuristicDirs, dirLE d (combineAll heuristicDirs) = true) ∧
      (∀ c, (∀ d ∈ heuristicDirs, dirLE d c = true) →
        dirLE (combineAll heuristicDirs) c = true)) := by
  refine ⟨by decide, by decide, by decide, by decide, fun l => ⟨?_, ?_⟩⟩
  · exact fun d hm => combineAll_upper l d hm
  · exact fun c h => combineAll_least l c .NONE (by cases c <;> decide) h

/-- Witness for c8_direction_combine: FORWARD and BACKWARD seen across two
heuristics combine to exactly BOTH. -/
theorem c8_direction_combine_witness :
    dirLE .FORWARD (combineAll [.FORWARD, .BACKWARD]) = true ∧
    dirLE (combineAll [.FORWARD, .BACKWARD]) .BOTH = true ∧
    combineAll [.FORWARD, .BACKWARD] = .BOTH := by
  refine ⟨?_, ?_, by decide⟩
  · exact (c8_direction_combine.2.2.2.2 [.FORWARD, .BACKWARD]).1 .FORWARD
      (by decide)
  · exact (c8_direction_combine.2.2.2.2 [.FORWARD, .BACKWARD]).2 .BOTH
      (by decide)

/-! ## Conservative propagation -/

/-- Modelled from the spec: the effect of the conservative-propagation
option (passes.td lines 29-30 and 150-156 declare the option; spec section
4.3: in this mode a would-be assignment that requires splitting an axis
into a size that does not evenly divide the axis's remaining size is
simply skipped rather than performed; the guarded splitting code itself is
not among the sources).  The step extends a dimension with a sub-axis of
the given split size unless conservative mode rejects the split. -/
def conservativeSplitStep (conservativePropagation : Bool)
    (axisName preSize splitSize remainingSize : Nat)
    (dim : List AxisRefAttr) : List AxisRefAttr :=
  if conservativePropagation ∧ ¬(splitSize ∣ remainingSize) then dim
  else dim ++ [⟨axisName, some (preSize, splitSize)⟩]

/-- C4: with conservative-propagation enabled, a propagation step that
would split an axis into a size that does not evenly divide its remaining
size is skipped, leaving the dimension exactly unchanged (the step is a
total function, so no error is raised); with the option disabled the same
input completes the split. -/
theorem c4_conservative_nondivisible_skip (axisName preSize splitSize
    remainingSize : Nat) (dim : List AxisRefAttr)
    (h : ¬(splitSize ∣ remainingSize)) :
    conservativeSplitStep true axisName preSize splitSize remainingSize
        dim = dim ∧
    conservativeSplitStep false axisName preSize splitSize remainingSize
        dim = dim ++ [⟨axisName, some (preSize, splitSize)⟩] := by
  constructor
  · simp [conservativeSplitStep, h]
  · simp [conservativeSplitStep]

/-- Witness for c4_conservative_nondivisible_skip: splitting a remaining
size of 3 by 2 is skipped in conservative mode and performed otherwise. -/
theorem c4_conservative_nondivisible_skip_witness :
    conservativeSplitStep true 0 1 2 3 [⟨5, none⟩] = [⟨5, none⟩] ∧
    conservativeSplitStep false 0 1 2 3 [⟨5, none⟩] =
      [⟨5, none⟩] ++ [⟨0, some (1, 2)⟩] :=
  c4_conservative_nondivisible_skip 0 1 2 3 [⟨5, none⟩] (by decide)

/-! ## Synthesized collective sequences of the reshard-to-collectives tests
The kinds of the collective operations emitted for each function of
reshard_to_collectives.mlir, transcribed in file order from its CHECK
lines.  Each inner list is the emitted operation sequence of one test
function. -/

/-- Kind of a collective operation in a synthesized sequence. -/
inductive CollectiveKind where
  | allGather
  | allSlice
  | allToAll
  | collectivePermute
deriving DecidableEq, Repr

/-- The emitted collective-kind sequence of every test function in
reshard_to_collectives.mlir, in file order. -/
def reshardTestSequences : List (List CollectiveKind) :=
  [ [],                                              -- redundant_reshard
    [.allGather],                                    -- all_gather_single_axis
    [.allGather],                                    -- all_gather_multiple_axes
    [.allGather],                                    -- all_gather_multiple_dims
    [.allGather],                                    -- all_gather_with_subaxis
    [.allSlice],                                     -- all_slice_multiple_axes
    [.allSlice],                                     -- all_slice_minor_axis
    [.allSlice],                                     -- all_slice_with_subaxis
    [.allToAll],                                     -- all_to_all_single_axis
    [.allToAll],                                     -- all_to_all_multiple_axes
    [.allToAll, .allToAll],                          -- two_all_to_alls_different_tgt_dims
    [.allToAll, .allToAll],                          -- two_all_to_alls_tgt_dim_not_empty
    [.allSlice, .allToAll, .allToAll],               -- slice_then_all_to_alls
    [.allToAll, .allToAll, .allGather],              -- all_to_all_subaxis_then_all_gather
    [.allToAll, .allToAll, .allGather],              -- all_to_all_subaxis_and_full_axis_then_all_gather
    [.allSlice, .collectivePermute, .allToAll],      -- slice_on_src_dim_then_all_to_all_subaxis
    [.allSlice, .collectivePermute, .allToAll],      -- slice_on_src_dim_then_all_to_all_multiple_axes
    [.collectivePermute],                            -- replace_same_size_axes_same_dim
    [.allSlice, .collectivePermute],                 -- replace_smaller_axis_with_bigger_same_dim
    [.collectivePermute, .allGather],                -- replace_bigger_axis_with_smaller_same_dim
    [.collectivePermute],                            -- replace_major_most_axis_in_dim
    [.allSlice, .allGather],                         -- replace_same_size_axes_diff_dims
    [.allSlice, .allGather],                         -- replace_bigger_axis_with_smaller_diff_dims
    [.allSlice, .allGather],                         -- replace_multiple_axes_diff_dims
    [.allSlice, .allGather],                         -- replace_smaller_axis_with_bigger_diff_dims
    [.allSlice, .allToAll, .allGather],              -- slice_tgt_dim_then_all_to_all_then_all_gather
    [.collectivePermute],                            -- swap_same_size_axes_between_dims
    [.collectivePermute, .allToAll],                 -- swap_diff_size_axes_between_dims
    [.allSlice, .collectivePermute],                 -- slice_and_swap_axes_between_dims
    [.allSlice, .collectivePermute],                 -- slice_sub_axes_then_swap_between_dims
    [.collectivePermute, .allToAll, .allGather],     -- swap_sub_axes_then_all_to_all_and_all_gather
    [.collectivePermute],                            -- reorder_axes_single_dim
    [.collectivePermute],                            -- reorder_axes_across_dims
    [.allSlice, .collectivePermute],                 -- slice_then_reorder_axes
    [.collectivePermute, .allGather],                -- reorder_axes_for_all_gather
    [.collectivePermute, .allToAll, .allGather],     -- reorder_axes_for_all_to_all_then_all_gather_single_axis
    [.collectivePermute, .allToAll, .allGather],     -- reorder_axes_for_all_to_all_then_all_gather_remaining_axes
    [.collectivePermute, .allToAll],                 -- all_to_all_axes_at_src_out_of_order
    [.collectivePermute, .allToAll],                 -- all_to_all_axes_at_src_and_tgt_out_of_order
    [.collectivePermute, .allToAll, .allToAll],      -- all_to_all_two_tgt_dims_src_out_of_order
    [.collectivePermute, .allToAll, .allToAll],      -- all_to_all_two_tgt_dims_src_out_of_order_2
    [.collectivePermute, .allToAll, .allToAll, .allGather],  -- all_to_all_and_gather_src_dim_out_of_order
    [.allSlice, .collectivePermute, .allToAll, .allGather],  -- reorder_sub_axes
    [.allSlice, .allToAll, .allGather],              -- replace_sub_axes
    [.allSlice, .collectivePermute, .allToAll, .allGather],  -- replace_sub_axes_2
    [.allSlice, .collectivePermute, .allToAll, .allGather],  -- replace_sub_axes_3
    [.allSlice, .collectivePermute, .allToAll, .allGather]   -- replace_sub_axes_4
  ]

/-- Holds when no collective-permute occurs after an operation whose kind
is in the given list. -/
def noPermuteAfterKinds (bad : List CollectiveKind) :
    List CollectiveKind → Bool
  | [] => true
  | c :: rest =>
    if c ∈ bad then
      rest.all (fun k => decide (k ≠ .collectivePermute)) &&
        noPermuteAfterKinds bad rest
    else
      noPermuteAfterKinds bad rest

/-- Holds when a sequence contains at most one collective-permute. -/
def atMostOnePermute (s : List CollectiveKind) : Bool :=
  decide (s.countP (fun k => decide (k = .collectivePermute)) ≤ 1)

/-- C3 (counterexample): the sequence synthesized for test
slice_on_src_dim_then_all_to_all_subaxis (reshard_to_collectives.mlir lines
137-145) is all-slice, collective-permute, all-to-all; its
collective-permute is emitted after an all-slice, refuting the claim that
the collective-permute is emitted before any all-gather, all-slice or
all-to-all of the sequence. -/
theorem c3_permute_after_slice_counterexample :
    [.allSlice, .collectivePermute, .allToAll] ∈ reshardTestSequences ∧
    noPermuteAfterKinds [.allGather, .allSlice, .allToAll]
      [.allSlice, .collectivePermute, .allToAll] = false := by
  constructor
  · decide
  · decide

/-- C3 (amended): in every synthesized resharding sequence of the test
suite, at most one collective-permute is emitted, and it is emitted before
any all-gather and before any all-to-all of the sequence; it may however be
preceded by an all-slice. -/
theorem c3_permute_order_amended :
    reshardTestSequences.all (fun s =>
      atMostOnePermute s &&
        noPermuteAfterKinds [.allGather, .allToAll] s) = true := by
  decide

/-! ## Resharding synthesis
The reshard-to-collectives pass implementation is not among the sources
(only its test file is), so the algorithm below is modelled from spec
section 4.5. -/

/-- Modelled from the spec: canonical sub-axis merging (spec section 4.1:
combining two adjacent windows of the same axis that together cover a
larger contiguous region yields a single merged AxisRef). -/
def mergeDim : List AxisRefAttr → List AxisRefAttr
  | [] => []
  | a :: rest =>
    match mergeDim rest with
    | [] => [a]
    | b :: tail =>
      match a.subAxisInfo, b.subAxisInfo with
      | some (p, s), some (q, u) =>
        if a.name = b.name ∧ q = p * s then
          ⟨a.name, some (p, s * u)⟩ :: tail
        else
          a :: b :: tail
      | _, _ => a :: b :: tail

/-- The per-dimension axis lists of a tensor sharding. -/
def axesPerDimOf (s : TensorShardingAttr) : AxesPerDim :=
  s.dimShardings.map DimensionShardingAttr.axes

/-- The per-dimension axis lists after canonical sub-axis merging; the
open/closed dimension flags are dropped, as resharding ignores them. -/
def mergedAxesPerDim (s : TensorShardingAttr) : AxesPerDim :=
  (axesPerDimOf s).map mergeDim

/-- Whether an axis occurs in any dimension of the given sharding. -/
def inAnyDim (dims : AxesPerDim) (a : AxisRefAttr) : Bool :=
  dims.any (fun l => decide (a ∈ l))

/-- The first dimension whose axis list contains the given axis. -/
def dimIdxOf (dims : AxesPerDim) (a : AxisRefAttr) : Option Nat :=
  dims.findIdx? (fun l => decide (a ∈ l))

/-- Modelled from the spec: axes classified gather — present only in the
source (spec section 4.5 step 1). -/
def gatherAxesPerDim (src tgt : AxesPerDim) : AxesPerDim :=
  src.map (fun l => l.filter (fun a => !inAnyDim tgt a))

/-- Modelled from the spec: axes classified slice — present only in the
target (spec section 4.5 step 1). -/
def sliceAxesPerDim (src tgt : AxesPerDim) : AxesPerDim :=
  tgt.map (fun l => l.filter (fun a => !inAnyDim src a))

/-- Modelled from the spec: axes classified move — present in both source
and target but on different tensor dimensions (spec section 4.5 step 1);
collects (axis, source dim, target dim) triples, walking the source dims
from the given index. -/
def moveTriplesFrom (tgt : AxesPerDim) : Nat → AxesPerDim →
    List (AxisRefAttr × Nat × Nat)
  | _, [] => []
  | i, l :: rest =>
    l.filterMap (fun a =>
      if decide (a ∈ tgt.getD i []) then none
      else
        match dimIdxOf tgt a with
        | some j => some (a, i, j)
        | none => none) ++ moveTriplesFrom tgt (i + 1) rest

/-- All move triples of a source/target pair. -/
def moveTriples (src tgt : AxesPerDim) : List (AxisRefAttr × Nat × Nat) :=
  moveTriplesFrom tgt 0 src

/-- Batches a move triple into the all-to-all parameter with its
(source dim, target dim) pair, or starts a new parameter. -/
def insertMove (ps : List AllToAllParam) (t : AxisRefAttr × Nat × Nat) :
    List AllToAllParam :=
  match ps with
  | [] => [⟨[t.1], t.2.1, t.2.2⟩]
  | p :: rest =>
    if p.srcDim = t.2.1 ∧ p.tgtDim = t.2.2 then
      ⟨p.axes ++ [t.1], p.srcDim, p.tgtDim⟩ :: rest
    else
      p :: insertMove rest t

/-- Modelled from the spec: all-to-all parameters, batched by
(source-dimension, target-dimension) pair (spec section 4.5 step 3). -/
def allToAllParamsOf (src tgt : AxesPerDim) : List AllToAllParam :=
  (moveTriples src tgt).foldl insertMove []

/-- The axes of a source dimension that stay on it, in source order. -/
def stayWithSrcOrder (src tgt : AxesPerDim) (i : Nat) : List AxisRefAttr :=
  (src.getD i []).filter (fun a => decide (a ∈ tgt.getD i []))

/-- The axes of a source dimension that stay on it, in target order. -/
def stayWithTgtOrder (src tgt : AxesPerDim) (i : Nat) : List AxisRefAttr :=
  (tgt.getD i []).filter (fun a => decide (a ∈ src.getD i []))

/-- Modelled from the spec: a dimension needs reordering when its staying
axes appear in a different relative order in source and target (spec
section 4.5 step 1, classification reorder). -/
def reorderNeeded (src tgt : AxesPerDim) (i : Nat) : Bool :=
  decide (stayWithSrcOrder src tgt i ≠ stayWithTgtOrder src tgt i)

/-- Whether the first list is a suffix of the second. -/
def endsWith (tail whole : List AxisRefAttr) : Bool :=
  decide (whole.drop (whole.length - tail.length) = tail)

/-- Modelled from the spec: the axes the collective-permute must realign —
the staying axes of dimensions needing reorder, plus the axes of moves
whose source position would make a direct all-to-all invalid because the
moved axes are not a suffix of their source dimension (spec section 4.5
step 2). -/
def permuteAffectedAxes (src tgt : AxesPerDim) : List AxisRefAttr :=
  ((List.range src.length).map (fun i =>
      if reorderNeeded src tgt i then stayWithSrcOrder src tgt i
      else [])).flatten ++
  ((allToAllParamsOf src tgt).map (fun p =>
      if endsWith p.axes (src.getD p.srcDim []) then [] else p.axes)).flatten

/-- A synthesized collective operation. -/
inductive Collective where
  | allGather (axesPerDim : AxesPerDim)
  | allSlice (axesPerDim : AxesPerDim)
  | allToAll (params : List AllToAllParam)
  | collectivePermute (affectedAxes : List AxisRefAttr)
deriving DecidableEq, Repr

/-- Whether a collective's axis-parameter list is empty. -/
def collectiveEmptyParams : Collective → Bool
  | .allGather a => emptyAxesPerDim a
  | .allSlice a => emptyAxesPerDim a
  | .allToAll ps => ps.isEmpty
  | .collectivePermute affected => affected.isEmpty

/-- Elides every generated collective whose axis-parameter list is empty
(the no-op elision; AllGatherNoopPattern and AllSliceNoopPattern of
canonicalization.td realize the same elision as rewrites). -/
def elideEmptyCollectives (cs : List Collective) : List Collective :=
  cs.filter (fun c => !collectiveEmptyParams c)

/-- Modelled from the spec: the resharding-synthesis algorithm (spec
section 4.5; the reshard-to-collectives pass body is not among the
sources).  After canonical sub-axis merging it emits the realigning
collective-permute, the all-to-alls for moved axes, one all-slice and one
all-gather, in the spec's order, and elides every collective whose
axis-parameter list is empty. -/
def reshardToCollectives (srcSh tgtSh : TensorShardingAttr) :
    List Collective :=
  let src := mergedAxesPerDim srcSh
  let tgt := mergedAxesPerDim tgtSh
  elideEmptyCollectives
    [ .collectivePermute (permuteAffectedAxes src tgt),
      .allToAll (allToAllParamsOf src tgt),
      .allSlice (sliceAxesPerDim src tgt),
      .allGather (gatherAxesPerDim src tgt) ]

theorem filter_not_inAnyDim_self (m : AxesPerDim) (l : List AxisRefAttr)
    (hl : l ∈ m) : l.filter (fun a => !inAnyDim m a) = [] := by
  refine List.filter_eq_nil_iff.mpr (fun a ha => ?_)
  have hmem : inAnyDim m a = true := by
    simp only [inAnyDim, List.any_eq_true]
    exact ⟨l, hl, by simpa using ha⟩
  simp [hmem]

theorem gather_self_empty (m : AxesPerDim) :
    emptyAxesPerDim (gatherAxesPerDim m m) = true := by
  simp only [emptyAxesPerDim, gatherAxesPerDim, List.all_eq_true]
  intro x hx
  obtain ⟨l, hl, rfl⟩ := List.mem_map.mp hx
  rw [filter_not_inAnyDim_self m l hl]
  rfl

theorem slice_self_empty (m : AxesPerDim) :
    emptyAxesPerDim (sliceAxesPerDim m m) = true := by
  simp only [emptyAxesPerDim, sliceAxesPerDim, List.all_eq_true]
  intro x hx
  obtain ⟨l, hl, rfl⟩ := List.mem_map.mp hx
  rw [filter_not_inAnyDim_self m l hl]
  rfl

theorem moveTriplesFrom_self (m : AxesPerDim) (l : AxesPerDim) (i : Nat)
    (h : m.drop i = l) : moveTriplesFrom m i l = [] := by
  induction l generalizing i with
  | nil => rfl
  | cons hd rest ih =>
    have hget : m[i]? = some hd := by
      have := List.getElem?_drop m i 0
      rw [h] at this
      simpa using this.symm
    have hgetD : m.getD i [] = hd := by
      rw [List.getD_eq_getElem?_getD, hget]
      rfl
    have hdrop : m.drop (i + 1) = rest := by
      have h2 : List.drop 1 (List.drop i m) = List.drop (i + 1) m :=
        List.drop_drop 1 i m
      rw [← h2, h]
      rfl
    show List.filterMap _ hd ++ moveTriplesFrom m (i + 1) rest = []
    rw [ih (i + 1) hdrop, List.append_nil]
    refine List.filterMap_eq_nil_iff.mpr (fun a ha => ?_)
    rw [hgetD]
    simp [ha]

theorem moveTriples_self (m : AxesPerDim) : moveTriples m m = [] :=
  moveTriplesFrom_self m m 0 (List.drop_zero m)

theorem allToAllParamsOf_self (m : AxesPerDim) :
    allToAllParamsOf m m = [] := by
  simp [allToAllParamsOf, moveTriples_self]

theorem stayWithSrcOrder_self (m : AxesPerDim) (i : Nat) :
    stayWithSrcOrder m m i = m.getD i [] := by
  refine List.filter_eq_self.mpr (fun a ha => ?_)
  simpa using ha

theorem stayWithTgtOrder_self (m : AxesPerDim) (i : Nat) :
    stayWithTgtOrder m m i = m.getD i [] := by
  refine List.filter_eq_self.mpr (fun a ha => ?_)
  simpa using ha

theorem reorderNeeded_self (m : AxesPerDim) (i : Nat) :
    reorderNeeded m m i = false := by
  simp [reorderNeeded, stayWithSrcOrder_self, stayWithTgtOrder_self]

theorem permuteAffectedAxes_self (m : AxesPerDim) :
    permuteAffectedAxes m m = [] := by
  simp only [permuteAffectedAxes, allToAllParamsOf_self, List.map_nil]
  rw [List.append_eq_nil]
  constructor
  · refine List.flatten_eq_nil_iff.mpr (fun l hl => ?_)
    obtain ⟨i, _, rfl⟩ := List.mem_map.mp hl
    rw [reorderNeeded_self]
    rfl
  · rfl

/-- C1: resharding from a TensorSharding to a target identical up to
canonical sub-axis merging (and regardless of open/closed dimension flags)
synthesizes the empty collective sequence; any generated collective whose
axis-parameter list is empty is elided from the output, and the
corresponding noop canonicalization patterns of canonicalization.td
rewrite empty-axes all-gather/all-slice ops to their operand. -/
theorem c1_reshard_identity (srcSh tgtSh : TensorShardingAttr)
    (h : mergedAxesPerDim srcSh = mergedAxesPerDim tgtSh) :
    reshardToCollectives srcSh tgtSh = [] ∧
    (∀ (cs : List Collective) (c : Collective),
      c ∈ elideEmptyCollectives cs → collectiveEmptyParams c = false) ∧
    (∀ (g : AxesPerDim) (t : CollectiveExpr) (sh : TensorShardingAttr),
      emptyAxesPerDim g = true →
      canonicalizeStep (.allGather g t sh) = some t) ∧
    (∀ (sl : AxesPerDim) (n : Nat) (sh : TensorShardingAttr),
      emptyAxesPerDim sl = true →
      canonicalizeStep (.allSlice sl (.value n) sh) = some (.value n)) := by
  refine ⟨?_, ?_, ?_, ?_⟩
  · show elideEmptyCollectives _ = []
    rw [h]
    simp [elideEmptyCollectives, collectiveEmptyParams,
      permuteAffectedAxes_self, allToAllParamsOf_self, slice_self_empty,
      gather_self_empty]
  · intro cs c hc
    have := (List.mem_filter.mp hc).2
    simpa using this
  · intro g t sh hg
    simp [canonicalizeStep, hg]
  · intro sl n sh hsl
    simp [canonicalizeStep, hsl]

/-- Witness for c1_reshard_identity: a source whose dimension holds two
adjacent sub-axes of axis 0 (closed dimension) reshards to the merged
single sub-axis target (open dimension) with the empty sequence. -/
theorem c1_reshard_identity_witness :
    reshardToCollectives
      ⟨0, [⟨[⟨0, some (1, 2)⟩, ⟨0, some (2, 3)⟩], true, none⟩], [], []⟩
      ⟨0, [⟨[⟨0, some (1, 6)⟩], false, none⟩], [], []⟩ = [] :=
  (c1_reshard_identity
    ⟨0, [⟨[⟨0, some (1, 2)⟩, ⟨0, some (2, 3)⟩], true, none⟩], [], []⟩
    ⟨0, [⟨[⟨0, some (1, 6)⟩], false, none⟩], [], []⟩ (by decide)).1

/-! ## Propagation engine
The propagation pass bodies are not among the sources (passes.td only
documents the strategy hierarchy), so the engine below is modelled from
spec section 4.3: a basic sweep propagating the longest common
order-respecting prefix per factor, an aggressive sweep additionally
applying a winning candidate to compatible dimensions, an op-priority loop
gating each op by a propagation direction, and a user-priority loop
admitting dimension priorities up to the current iteration. -/

/-- State of one tensor dimension during propagation: its axes (axis names
as numbers), the closed flag, and the optional user priority. -/
structure PDim where
  axes : List Nat
  isClosed : Bool
  priority : Option Nat
deriving DecidableEq, Repr

/-- Per-value, per-dimension propagation state of the graph. -/
abbrev PState := List (List PDim)

/-- A dimension mapped to a factor: value index, dimension index, and
whether the value is a result (true) or an operand (false) of the op. -/
structure FactorDimRef where
  value : Nat
  dim : Nat
  isResult : Bool
deriving DecidableEq, Repr

/-- A factor of an op rule: its mapped dimensions and the blocked flag. -/
structure PFactor where
  dims : List FactorDimRef
  blocked : Bool
deriving DecidableEq, Repr

/-- An op partition rule: the factors of one operation. -/
structure PRule where
  factors : List PFactor
deriving DecidableEq, Repr

/-- Gate applied by the outer tiers: which side of an op may be written
(from the propagation direction) and which user priorities are admitted. -/
structure PGate where
  writeOperands : Bool
  writeResults : Bool
  prioBound : Option Nat
deriving DecidableEq, Repr

/-- The unrestricted gate. -/
def fullGate : PGate := ⟨true, true, none⟩

/-- Modelled from the spec: a dimension sharding is admitted at iteration i
of the user-priority loop when its priority is at most i; absent priority
means always-apply (spec sections 3 and 4.3, User-priority). -/
def admitted (g : PGate) (d : PDim) : Bool :=
  match d.priority with
  | none => true
  | some p =>
    match g.prioBound with
    | none => true
    | some b => decide (p ≤ b)

/-- The dimension state referenced by a factor-dim reference. -/
def getPDim (s : PState) (e : FactorDimRef) : Option PDim :=
  match s[e.value]? with
  | some dims => dims[e.dim]?
  | none => none

/-- FORWARD permits writes to results only, BACKWARD to operands only
(spec section 4.3, Op-priority). -/
def writeAllowed (g : PGate) (e : FactorDimRef) : Bool :=
  if e.isResult then g.writeResults else g.writeOperands

/-- Replaces the axes of the referenced dimension. -/
def setPDim (s : PState) (e : FactorDimRef) (axes : List Nat) : PState :=
  match s[e.value]? with
  | some dims =>
    match dims[e.dim]? with
    | some d => s.set e.value (dims.set e.dim { d with axes := axes })
    | none => s
  | none => s

/-- Longest common prefix of two axis lists. -/
def lead2 : List Nat → List Nat → List Nat
  | a :: as, b :: bs => if a = b then a :: lead2 as bs else []
  | _, _ => []

/-- Modelled from the spec: the longest common, order-respecting prefix of
axes present in every non-empty candidate list (spec section 4.3, Basic). -/
def commonLead (ls : List (List Nat)) : List Nat :=
  match ls.filter (fun l => !l.isEmpty) with
  | [] => []
  | l :: rest => rest.foldl lead2 l

/-- The axis lists of the factor's mapped dimensions admitted for reading
under the gate. -/
def factorAxesLists (g : PGate) (f : PFactor) (s : PState) :
    List (List Nat) :=
  f.dims.filterMap (fun e =>
    match getPDim s e with
    | some d => if admitted g d then some d.axes else none
    | none => none)

/-- Modelled from the spec: the basic write — apply the common prefix to a
mapped dimension that does not already have it (an admitted, open,
writable dimension whose axis list is still empty), skipping closed
dimensions (spec section 4.3, Basic). -/
def basicWrite (g : PGate) (pfx : List Nat) (s : PState)
    (e : FactorDimRef) : PState :=
  match getPDim s e with
  | none => s
  | some d =>
    if admitted g d && !d.isClosed && writeAllowed g e && d.axes.isEmpty &&
        !pfx.isEmpty then
      setPDim s e pfx
    else s

/-- One basic-propagation step of a single factor: blocked factors are
skipped entirely. -/
def applyFactorBasic (g : PGate) (s : PState) (f : PFactor) : PState :=
  if f.blocked then s
  else
    let pfx := commonLead (factorAxesLists g f s)
    f.dims.foldl (basicWrite g pfx) s

/-- Modelled from the spec: the winning candidate of the aggressive
strategy — here the longest admitted axis list, first among ties (the
concrete comparison heuristic is an injectable policy; spec sections 4.3
Aggressive and 9). -/
def pickWinner (ls : List (List Nat)) : List Nat :=
  ls.foldl (fun best l => if best.length < l.length then l else best) []

/-- Whether the first axis list is a leading part (prefix) of the second. -/
def isLeadOf : List Nat → List Nat → Bool
  | [], _ => true
  | a :: as, b :: bs => decide (a = b) && isLeadOf as bs
  | _ :: _, [] => false

/-- Modelled from the spec: the aggressive write — apply the winner to
every compatible mapped dimension (one whose current axes are a proper
leading part of the winner), leaving incompatible dimensions unchanged
(spec section 4.3, Aggressive). -/
def aggressiveWrite (g : PGate) (w : List Nat) (s : PState)
    (e : FactorDimRef) : PState :=
  match getPDim s e with
  | none => s
  | some d =>
    if admitted g d && !d.isClosed && writeAllowed g e &&
        isLeadOf d.axes w && decide (d.axes.length < w.length) then
      setPDim s e w
    else s

/-- One aggressive-propagation step of a single factor: the basic step
followed by conflict resolution via the winning candidate. -/
def applyFactorAggressive (g : PGate) (s : PState) (f : PFactor) : PState :=
  if f.blocked then s
  else
    let s1 := applyFactorBasic g s f
    let w := pickWinner (factorAxesLists g f s1)
    f.dims.foldl (aggressiveWrite g w) s1

/-- One sweep of a single op rule over all its factors. -/
def ruleSweep (aggressive : Bool) (g : PGate) (s : PState) (r : PRule) :
    PState :=
  r.factors.foldl
    (fun s f =>
      if aggressive then applyFactorAggressive g s f
      else applyFactorBasic g s f) s

/-- One sweep of the whole graph. -/
def graphSweep (aggressive : Bool) (g : PGate) (rules : List PRule)
    (s : PState) : PState :=
  rules.foldl (ruleSweep aggressive g) s

/-- Fuel-bounded iteration to a fixpoint. -/
def iterFix (step : PState → PState) : Nat → PState → PState
  | 0, s => s
  | fuel + 1, s =>
    let t := step s
    if t = s then s else iterFix step fuel t

/-- The basic propagation tier: iterate the basic graph sweep. -/
def basicPropagate (rules : List PRule) (g : PGate) (fuel : Nat)
    (s : PState) : PState :=
  iterFix (graphSweep false g rules) fuel s

/-- The aggressive propagation tier: iterate the aggressive graph sweep. -/
def aggressivePropagate (rules : List PRule) (g : PGate) (fuel : Nat)
    (s : PState) : PState :=
  iterFix (graphSweep true g rules) fuel s

/-- The gate induced by a propagation direction: FORWARD writes results,
BACKWARD writes operands, BOTH writes both, NONE writes nothing. -/
def gateOfDir (d : PropagationDirection) (bound : Option Nat) : PGate :=
  ⟨decide (d = .BACKWARD) || decide (d = .BOTH),
   decide (d = .FORWARD) || decide (d = .BOTH), bound⟩

/-- Modelled from the spec: one op-priority sweep at priority p — every op
propagates aggressively under the direction combined from its heuristics
of priorities 0..p (spec section 4.3, Op-priority; passes.td lines
75-86). -/
def opPrioritySweep (rules : List PRule)
    (dirs : List (List PropagationDirection)) (bound : Option Nat)
    (p : Nat) (s : PState) : PState :=
  (rules.zip dirs).foldl
    (fun s rd =>
      ruleSweep true (gateOfDir (combineAll (rd.2.take (p + 1))) bound) s
        rd.1) s

/-- The op-priority propagation tier: an outer loop of increasing priority,
each running an aggressive fixpoint iteration. -/
def opPriorityPropagate (rules : List PRule)
    (dirs : List (List PropagationDirection)) (bound : Option Nat)
    (fuel pMax : Nat) (s : PState) : PState :=
  (List.range (pMax + 1)).foldl
    (fun s p => iterFix (opPrioritySweep rules dirs bound p) fuel s) s

/-- The user-priority propagation tier: at outer iteration i only
dimension shardings with priority at most i are admitted. -/
def userPriorityPropagate (rules : List PRule)
    (dirs : List (List PropagationDirection)) (fuel pMax iMax : Nat)
    (s : PState) : PState :=
  (List.range (iMax + 1)).foldl
    (fun s i => opPriorityPropagate rules dirs (some i) fuel pMax s) s

/-- A graph state is a propagation fixpoint when every single-rule sweep,
under every gate (any direction restriction and any admitted user
priority), leaves it unchanged. -/
def RuleConverged (rules : List PRule) (s : PState) : Prop :=
  ∀ (g : PGate) (r : PRule), r ∈ rules →
    ruleSweep true g s r = s ∧ ruleSweep false g s r = s

/-! Specificity order: a dimension only grows more specific (its axis list
is only extended), and closed flags and priorities never change. -/

/-- Order on dimension states: the axes of the first are a leading part of
the axes of the second, all else equal. -/
def dimLE (a b : PDim) : Prop :=
  (∃ ext, a.axes ++ ext = b.axes) ∧ a.isClosed = b.isClosed ∧
    a.priority = b.priority

/-- Pointwise specificity order on graph states. -/
def stateLE (s t : PState) : Prop :=
  List.Forall₂ (List.Forall₂ dimLE) s t

theorem dimLE_refl (a : PDim) : dimLE a a :=
  ⟨⟨[], List.append_nil _⟩, rfl, rfl⟩

theorem dimLE_trans (a b c : PDim) (h1 : dimLE a b) (h2 : dimLE b c) :
    dimLE a c := by
  obtain ⟨⟨e1, he1⟩, hc1, hp1⟩ := h1
  obtain ⟨⟨e2, he2⟩, hc2, hp2⟩ := h2
  exact ⟨⟨e1 ++ e2, by rw [← List.append_assoc, he1, he2]⟩,
    hc1.trans hc2, hp1.trans hp2⟩

theorem forall2_trans {r : α → α → Prop}
    (htrans : ∀ a b c, r a b → r b c → r a c) :
    ∀ {l1 l2 l3 : List α}, List.Forall₂ r l1 l2 → List.Forall₂ r l2 l3 →
      List.Forall₂ r l1 l3 := by
  intro l1 l2 l3 h12
  induction h12 generalizing l3 with
  | nil =>
    intro h23
    cases h23
    exact .nil
  | cons hab h ih =>
    intro h23
    cases h23 with
    | cons hbc h2 => exact .cons (htrans _ _ _ hab hbc) (ih h2)

theorem stateLE_refl (s : PState) : stateLE s s :=
  List.forall₂_same.mpr (fun _ _ =>
    List.forall₂_same.mpr (fun d _ => dimLE_refl d))

theorem stateLE_trans (s t u : PState) (h1 : stateLE s t)
    (h2 : stateLE t u) : stateLE s u :=
  @forall2_trans (List PDim) (List.Forall₂ dimLE)
    (fun a b c ha hb => @forall2_trans PDim dimLE dimLE_trans a b c ha hb)
    s t u h1 h2

theorem forall2_set {r : α → α → Prop} (hrefl : ∀ a, r a a) :
    ∀ (l : List α) (i : Nat) (x : α), (∀ a, l[i]? = some a → r a x) →
      List.Forall₂ r l (l.set i x)
  | [], _, _, _ => .nil
  | hd :: tl, 0, x, h => .cons (h hd (by simp))
      (List.forall₂_same.mpr (fun a _ => hrefl a))
  | hd :: tl, n + 1, x, h => .cons (hrefl hd)
      (forall2_set hrefl tl n x (fun a ha => h a (by simpa using ha)))

theorem setPDim_mono (s : PState) (e : FactorDimRef) (newAxes : List Nat)
    (d : PDim) (hget : getPDim s e = some d)
    (hext : ∃ ext, d.axes ++ ext = newAxes) :
    stateLE s (setPDim s e newAxes) := by
  unfold getPDim at hget
  unfold setPDim
  cases hv : s[e.value]? with
  | none =>
    rw [hv] at hget
    exact absurd hget (by simp)
  | some dims =>
    rw [hv] at hget
    have hget2 : dims[e.dim]? = some d := hget
    show stateLE s
      (match dims[e.dim]? with
       | some d2 =>
         s.set e.value (dims.set e.dim { d2 with axes := newAxes })
       | none => s)
    rw [hget2]
    show List.Forall₂ (List.Forall₂ dimLE) s
      (s.set e.value (dims.set e.dim { d with axes := newAxes }))
    refine @forall2_set (List PDim) (List.Forall₂ dimLE)
      (fun dims0 => List.forall₂_same.mpr (fun x _ => dimLE_refl x))
      s e.value _ (fun a ha => ?_)
    rw [hv] at ha
    obtain rfl : dims = a := Option.some.inj ha
    refine @forall2_set PDim dimLE dimLE_refl dims e.dim _ (fun x hx => ?_)
    rw [hget2] at hx
    obtain rfl : d = x := Option.some.inj hx
    exact ⟨hext, rfl, rfl⟩

theorem isLeadOf_ext : ∀ (a b : List Nat), isLeadOf a b = true →
    ∃ ext, a ++ ext = b
  | [], b, _ => ⟨b, rfl⟩
  | x :: xs, [], h => by simp [isLeadOf] at h
  | x :: xs, y :: ys, h => by
    simp only [isLeadOf, Bool.and_eq_true, decide_eq_true_eq] at h
    obtain ⟨rfl, h2⟩ := h
    obtain ⟨ext, hext⟩ := isLeadOf_ext xs ys h2
    exact ⟨ext, by rw [List.cons_append, hext]⟩

theorem basicWrite_mono (g : PGate) (pfx : List Nat) (s : PState)
    (e : FactorDimRef) : stateLE s (basicWrite g pfx s e) := by
  unfold basicWrite
  cases hget : getPDim s e with
  | none => exact stateLE_refl s
  | some d =>
    show stateLE s (if (admitted g d && !d.isClosed && writeAllowed g e &&
        d.axes.isEmpty && !pfx.isEmpty) = true then setPDim s e pfx else s)
    by_cases hcond : (admitted g d && !d.isClosed && writeAllowed g e &&
        d.axes.isEmpty && !pfx.isEmpty) = true
    · rw [if_pos hcond]
      have hempty : d.axes = [] := by
        simp only [Bool.and_eq_true] at hcond
        exact List.isEmpty_iff.mp hcond.1.2
      exact setPDim_mono s e pfx d hget ⟨pfx, by rw [hempty]; rfl⟩
    · rw [if_neg hcond]
      exact stateLE_refl s

theorem aggressiveWrite_mono (g : PGate) (w : List Nat) (s : PState)
    (e : FactorDimRef) : stateLE s (aggressiveWrite g w s e) := by
  unfold aggressiveWrite
  cases hget : getPDim s e with
  | none => exact stateLE_refl s
  | some d =>
    show stateLE s (if (admitted g d && !d.isClosed && writeAllowed g e &&
        isLeadOf d.axes w && decide (d.axes.length < w.length)) = true then
        setPDim s e w else s)
    by_cases hcond : (admitted g d && !d.isClosed && writeAllowed g e &&
        isLeadOf d.axes w && decide (d.axes.length < w.length)) = true
    · rw [if_pos hcond]
      have hlead : isLeadOf d.axes w = true := by
        simp only [Bool.and_eq_true] at hcond
        exact hcond.1.2
      exact setPDim_mono s e w d hget (isLeadOf_ext d.axes w hlead)
    · rw [if_neg hcond]
      exact stateLE_refl s

theorem foldl_mono {β : Type} (f : PState → β → PState)
    (hstep : ∀ t e, stateLE t (f t e)) :
    ∀ (l : List β) (s : PState), stateLE s (l.foldl f s)
  | [], s => stateLE_refl s
  | e :: rest, s =>
    stateLE_trans _ _ _ (hstep s e) (foldl_mono f hstep rest (f s e))

theorem applyFactorBasic_mono (g : PGate) (s : PState) (f : PFactor) :
    stateLE s (applyFactorBasic g s f) := by
  unfold applyFactorBasic
  by_cases hb : f.blocked
  · rw [if_pos hb]
    exact stateLE_refl s
  · rw [if_neg hb]
    exact foldl_mono _ (fun t e => basicWrite_mono g _ t e) f.dims s

theorem applyFactorAggressive_mono (g : PGate) (s : PState) (f : PFactor) :
    stateLE s (applyFactorAggressive g s f) := by
  unfold applyFactorAggressive
  by_cases hb : f.blocked
  · rw [if_pos hb]
    exact stateLE_refl s
  · rw [if_neg hb]
    refine stateLE_trans _ _ _ (applyFactorBasic_mono g s f) ?_
    exact foldl_mono _ (fun t e => aggressiveWrite_mono g _ t e) f.dims _

theorem ruleSweep_mono (aggressive : Bool) (g : PGate) (s : PState)
    (r : PRule) : stateLE s (ruleSweep aggressive g s r) := by
  unfold ruleSweep
  refine foldl_mono _ (fun t f => ?_) r.factors s
  by_cases ha : aggressive
  · simpa [ha] using applyFactorAggressive_mono g t f
  · simpa [ha] using applyFactorBasic_mono g t f

theorem graphSweep_mono (aggressive : Bool) (g : PGate)
    (rules : List PRule) (s : PState) :
    stateLE s (graphSweep aggressive g rules s) :=
  foldl_mono _ (fun t r => ruleSweep_mono aggressive g t r) rules s

/-! Fixpoint lemmas. -/

theorem foldl_fix {β : Type} (f : PState → β → PState) (l : List β)
    (s : PState) (h : ∀ b ∈ l, f s b = s) : l.foldl f s = s := by
  induction l with
  | nil => rfl
  | cons hd tl ih =>
    rw [List.foldl_cons, h hd (List.mem_cons_self _ _)]
    exact ih (fun b hb => h b (List.mem_cons_of_mem _ hb))

theorem iterFix_fix (step : PState → PState) (fuel : Nat) (s : PState)
    (h : step s = s) : iterFix step fuel s = s := by
  cases fuel with
  | zero => rfl
  | succ n => simp [iterFix, h]

theorem graphSweep_fix (aggressive : Bool) (g : PGate)
    (rules : List PRule) (s : PState) (hconv : RuleConverged rules s) :
    graphSweep aggressive g rules s = s := by
  refine foldl_fix _ rules s (fun r hr => ?_)
  cases aggressive with
  | true => exact (hconv g r hr).1
  | false => exact (hconv g r hr).2

theorem opPrioritySweep_fix (rules : List PRule)
    (dirs : List (List PropagationDirection)) (bound : Option Nat)
    (p : Nat) (s : PState) (hconv : RuleConverged rules s) :
    opPrioritySweep rules dirs bound p s = s := by
  refine foldl_fix _ (rules.zip dirs) s (fun rd hrd => ?_)
  exact (hconv _ rd.1 ((List.of_mem_zip hrd).1)).1

/-- C2: on a graph state that is a propagation fixpoint, re-running any
propagation tier (basic, aggressive, op-priority or user-priority) changes
no value's sharding assignment, and every propagation sweep only adds
specificity (each dimension's axis list is only ever extended; closed
flags and priorities are untouched). -/
theorem c2_propagation_fixpoint_noop (rules : List PRule)
    (dirs : List (List PropagationDirection)) (s : PState)
    (g : PGate) (bound : Option Nat) (fuel pMax iMax : Nat)
    (hconv : RuleConverged rules s) :
    basicPropagate rules g fuel s = s ∧
    aggressivePropagate rules g fuel s = s ∧
    opPriorityPropagate rules dirs bound fuel pMax s = s ∧
    userPriorityPropagate rules dirs fuel pMax iMax s = s ∧
    (∀ (t : PState) (aggressive : Bool) (g2 : PGate),
      stateLE t (graphSweep aggressive g2 rules t)) := by
  have hop : ∀ (b : Option Nat) (pM : Nat),
      opPriorityPropagate rules dirs b fuel pM s = s := by
    intro b pM
    refine foldl_fix _ (List.range (pM + 1)) s (fun p _ => ?_)
    exact iterFix_fix _ fuel s (opPrioritySweep_fix rules dirs b p s hconv)
  refine ⟨?_, ?_, hop bound pMax, ?_, ?_⟩
  · exact iterFix_fix _ fuel s (graphSweep_fix false g rules s hconv)
  · exact iterFix_fix _ fuel s (graphSweep_fix true g rules s hconv)
  · exact foldl_fix _ (List.range (iMax + 1)) s (fun i _ => hop (some i) pMax)
  · exact fun t aggressive g2 => graphSweep_mono aggressive g2 rules t

/-- Witness for c2_propagation_fixpoint_noop: a one-op graph whose factor
maps an operand dimension and a result dimension, both closed and carrying
the same axis, is converged, and every tier leaves it unchanged. -/
theorem c2_propagation_fixpoint_noop_witness :
    RuleConverged [⟨[⟨[⟨0, 0, false⟩, ⟨1, 0, true⟩], false⟩]⟩]
      [[⟨[7], true, none⟩], [⟨[7], true, none⟩]] ∧
    userPriorityPropagate [⟨[⟨[⟨0, 0, false⟩, ⟨1, 0, true⟩], false⟩]⟩]
      [[.BOTH]] 3 1 1 [[⟨[7], true, none⟩], [⟨[7], true, none⟩]] =
      [[⟨[7], true, none⟩], [⟨[7], true, none⟩]] := by
  have hconv : RuleConverged [⟨[⟨[⟨0, 0, false⟩, ⟨1, 0, true⟩], false⟩]⟩]
      [[⟨[7], true, none⟩], [⟨[7], true, none⟩]] := by
    intro g r hr
    rw [List.mem_singleton] at hr
    subst hr
    exact ⟨rfl, rfl⟩
  exact ⟨hconv,
    (c2_propagation_fixpoint_noop
      [⟨[⟨[⟨0, 0, false⟩, ⟨1, 0, true⟩], false⟩]⟩] [[.BOTH]]
      [[⟨[7], true, none⟩], [⟨[7], true, none⟩]] fullGate none 3 1 1
      hconv).2.2.2.1⟩

end Shardy
